import Mathlib

/-!
Verification of the LaTeX macro-extraction core of
`get_jupyterbook_latex_macros.py` (repository `areding/latexref`).

The script walks every content file of a Jupyter Book, parses its text with
the external `pylatexenc.latexwalker` parser, recursively collects the names
of all LaTeX macros used (function `get_macros`), cleans the aggregate set
(function `final_clean`), classifies content files by extension
(function `get_content_filepaths`) and writes the resulting names to a
newline-joined text file (function `write_file`).

The syntax-node taxonomy is the fixed set of `pylatexenc.latexwalker` node
classes imported by the script.  Each class is a direct subclass of the
common `LatexNode` base: in particular `LatexEnvironmentNode` is *not* a
`LatexMacroNode`, so `node.isNodeType(LatexMacroNode)` is false for
environment nodes.  A macro node carries its `macroname` and (unvisited)
argument nodes; math, environment and group nodes carry a child `nodelist`.
-/

/-- The `pylatexenc.latexwalker` node taxonomy used by the script
(the six classes imported at the top of the file).  A macro node carries
the macro's name and its parsed arguments (`nodeargd`); math, environment
and group nodes carry an ordered child node list; character runs and
specials carry only text. -/
inductive LatexNode where
  | LatexMacroNode (macroname : String) (nodeargd : List LatexNode)
  | LatexMathNode (nodelist : List LatexNode)
  | LatexEnvironmentNode (environmentname : String) (nodelist : List LatexNode)
  | LatexGroupNode (nodelist : List LatexNode)
  | LatexCharsNode (chars : String)
  | LatexSpecialsNode (specials_chars : String)

/-- `is_macro` from the source: `node.isNodeType(LatexMacroNode)`.
True exactly for macro nodes (environment nodes are a separate class). -/
def is_macro (node : LatexNode) : Bool :=
  match node with
  | LatexNode.LatexMacroNode _ _ => true
  | _ => false

/-- `has_nodelist` from the source:
`node.isNodeType(LatexMathNode) or node.isNodeType(LatexEnvironmentNode)`. -/
def has_nodelist (node : LatexNode) : Bool :=
  match node with
  | LatexNode.LatexMathNode _ => true
  | LatexNode.LatexEnvironmentNode _ _ => true
  | _ => false

/-- The `macroname` attribute of a node.  Only macro nodes carry it in
`pylatexenc`; the source only reads it under `is_macro(node)`, so the
default value for the other kinds is never relevant. -/
def LatexNode.macroname : LatexNode → String
  | LatexNode.LatexMacroNode name _ => name
  | _ => ""

/-- The `nodelist` attribute of a node.  Math, environment and group nodes
carry one in `pylatexenc`; the source only reads it under
`has_nodelist(node)`, so the default for the remaining kinds is never
relevant. -/
def LatexNode.nodelist : LatexNode → List LatexNode
  | LatexNode.LatexMathNode l => l
  | LatexNode.LatexEnvironmentNode _ l => l
  | LatexNode.LatexGroupNode l => l
  | _ => []

/-- `get_macros` from the source: recursively collect the set of macro
names in a node list.  A macro node contributes `node.macroname`; a node
with a child node list (math or environment) contributes the recursively
collected names of `node.nodelist`; every other node contributes nothing;
contributions are accumulated by set union. -/
def get_macros (node_list : List LatexNode) : Finset String :=
  match node_list with
  | [] => ∅
  | node :: rest =>
    (if is_macro node then {node.macroname}
     else if has_nodelist node then get_macros node.nodelist
     else ∅) ∪ get_macros rest
termination_by sizeOf node_list
decreasing_by
  all_goals simp_wf
  all_goals cases node
  all_goals try simp [LatexNode.nodelist]
  all_goals omega

/-- The contribution of a single node to `get_macros`
(the body of the `for` loop in the source). -/
def node_contrib (node : LatexNode) : Finset String :=
  if is_macro node then {node.macroname}
  else if has_nodelist node then get_macros node.nodelist
  else ∅

/-- Reference collector following the spec's words (algorithm of the
Macro Collector, spec section 4.3): empty list yields the empty set; a
macro node adds its name; a math-region or environment-region node merges
the recursively collected names of its child node list; any other node
contributes nothing; the merge operation is set union. -/
def get_macros_ref : List LatexNode → Finset String
  | [] => ∅
  | LatexNode.LatexMacroNode name _ :: rest => {name} ∪ get_macros_ref rest
  | LatexNode.LatexMathNode l :: rest => get_macros_ref l ∪ get_macros_ref rest
  | LatexNode.LatexEnvironmentNode _ l :: rest => get_macros_ref l ∪ get_macros_ref rest
  | _ :: rest => get_macros_ref rest

/-- The names of the macro nodes encountered by the collector's traversal,
in order and with duplicates: the same descent rules as `get_macros`
(macro arguments and group contents are not visited), but accumulated as a
list instead of a set. -/
def macro_names : List LatexNode → List String
  | [] => []
  | LatexNode.LatexMacroNode name _ :: rest => name :: macro_names rest
  | LatexNode.LatexMathNode l :: rest => macro_names l ++ macro_names rest
  | LatexNode.LatexEnvironmentNode _ l :: rest => macro_names l ++ macro_names rest
  | _ :: rest => macro_names rest

/-- Size of a node list: the total number of nodes, counting one for
every node visited or skipped and descending into every child node list.
Used as the termination measure of the recursion. -/
def nodes_size : List LatexNode → Nat
  | [] => 1
  | LatexNode.LatexMacroNode _ args :: rest => 1 + nodes_size args + nodes_size rest
  | LatexNode.LatexMathNode l :: rest => 1 + nodes_size l + nodes_size rest
  | LatexNode.LatexEnvironmentNode _ l :: rest => 1 + nodes_size l + nodes_size rest
  | LatexNode.LatexGroupNode l :: rest => 1 + nodes_size l + nodes_size rest
  | _ :: rest => 1 + nodes_size rest

/-- Fuel-instrumented version of `get_macros`, modelling the recursive
procedure call by call: each call consumes one unit of fuel, a recursive
call is made on the child node list of a math or environment node and on
the remainder of the list, and `none` means the fuel ran out before the
recursion bottomed out. -/
def get_macros_fuel : Nat → List LatexNode → Option (Finset String)
  | 0, _ => none
  | _ + 1, [] => some ∅
  | fuel + 1, node :: rest =>
    (match node with
      | LatexNode.LatexMacroNode name _ => some {name}
      | LatexNode.LatexMathNode l => get_macros_fuel fuel l
      | LatexNode.LatexEnvironmentNode _ l => get_macros_fuel fuel l
      | _ => some ∅).bind
      (fun head => (get_macros_fuel fuel rest).map (fun tail => head ∪ tail))

/-- Python's `str.strip()` as used by `final_clean`: remove leading and
trailing whitespace characters. -/
def String.strip (s : String) : String :=
  String.mk (((s.data.dropWhile (fun c => c.isWhitespace)).reverse.dropWhile
    (fun c => c.isWhitespace)).reverse)

/-- The `problem_list` denylist of `final_clean`: the open brace, the close
brace, the letter t, the letter n, the ampersand, and the bare backslash. -/
def problem_list : List String := ["\x7b", "\x7d", "t", "n", "&", "\\"]

/-- `final_clean` from the source: keep the items whose stripped form is
nonempty (Python truthiness of `item.strip()`) and which are not in
`problem_list`. -/
def final_clean (macros : Finset String) : Finset String :=
  macros.filter (fun item => item.strip ≠ "" ∧ item ∉ problem_list)

/-- A directory entry as seen by `get_content_filepaths`: the source only
reads the `suffix` attribute of each `pathlib.Path` (the final extension,
empty for extensionless files), so a file is modelled by its name and its
suffix. -/
structure FsFile where
  name : String
  suffix : String

/-- The observable outcome of the directory scan: the two path lists the
source builds, plus the files it reports as ignored hidden files
(`print`) and the files it warns about (`warnings.warn`, non-fatal). -/
structure ScanResult where
  all_md_filepaths : List FsFile
  all_ipynb_filepaths : List FsFile
  hidden_ignored : List FsFile
  warned : List FsFile

/-- The empty scan accumulator (the two empty lists the source starts
with, and no messages yet). -/
def emptyScan : ScanResult := ScanResult.mk [] [] [] []

/-- One iteration of the inner loop of `get_content_filepaths`: classify
one file by its suffix.  `.md` and `.ipynb` files are appended to their
lists; an empty suffix is reported as a hidden file and skipped; any other
suffix produces a non-fatal warning and the file is excluded. -/
def scan_file (acc : ScanResult) (file : FsFile) : ScanResult :=
  if file.suffix = ".md" then
    { acc with all_md_filepaths := acc.all_md_filepaths ++ [file] }
  else if file.suffix = ".ipynb" then
    { acc with all_ipynb_filepaths := acc.all_ipynb_filepaths ++ [file] }
  else if file.suffix = "" then
    { acc with hidden_ignored := acc.hidden_ignored ++ [file] }
  else
    { acc with warned := acc.warned ++ [file] }

/-- `get_content_filepaths` from the source: iterate over the unit
folders, asserting that each exists (`Except.error` models the fatal
`AssertionError`), and classify every file of every existing folder with
`scan_file`.  The filesystem is modelled as a lookup from folder name to
its list of entries (`none` for a missing folder). -/
def get_content_filepaths (book_dir : String → Option (List FsFile)) :
    List String → ScanResult → Except String ScanResult
  | [], acc => Except.ok acc
  | unit :: units, acc =>
    match book_dir unit with
    | none => Except.error ("Path " ++ unit ++ " does not exist!")
    | some files => get_content_filepaths book_dir units (files.foldl scan_file acc)

/-- The text written by `write_file`: `"\n".join(macros)`, with the set's
iteration order given as a list.  Joining the empty sequence gives the
empty string; joining a single name gives that name; otherwise the
separator is inserted between consecutive names. -/
def write_file_content : List String → String
  | [] => ""
  | [m] => m
  | m :: rest => m ++ "\n" ++ write_file_content rest

theorem string_data_append (s t : String) : (s ++ t).data = s.data ++ t.data := rfl

theorem get_macros_nil : get_macros [] = ∅ := by
  simp [get_macros]

theorem get_macros_cons (node : LatexNode) (rest : List LatexNode) :
    get_macros (node :: rest) = node_contrib node ∪ get_macros rest := by
  rw [get_macros, node_contrib]

theorem node_contrib_macro (name : String) (args : List LatexNode) :
    node_contrib (LatexNode.LatexMacroNode name args) = {name} := by
  simp [node_contrib, is_macro, LatexNode.macroname]

theorem node_contrib_math (l : List LatexNode) :
    node_contrib (LatexNode.LatexMathNode l) = get_macros l := by
  simp [node_contrib, is_macro, has_nodelist, LatexNode.nodelist]

theorem node_contrib_env (ename : String) (l : List LatexNode) :
    node_contrib (LatexNode.LatexEnvironmentNode ename l) = get_macros l := by
  simp [node_contrib, is_macro, has_nodelist, LatexNode.nodelist]

theorem node_contrib_group (l : List LatexNode) :
    node_contrib (LatexNode.LatexGroupNode l) = ∅ := by
  simp [node_contrib, is_macro, has_nodelist]

theorem node_contrib_chars (s : String) :
    node_contrib (LatexNode.LatexCharsNode s) = ∅ := by
  simp [node_contrib, is_macro, has_nodelist]

theorem node_contrib_specials (s : String) :
    node_contrib (LatexNode.LatexSpecialsNode s) = ∅ := by
  simp [node_contrib, is_macro, has_nodelist]

theorem get_macros_append (L1 L2 : List LatexNode) :
    get_macros (L1 ++ L2) = get_macros L1 ∪ get_macros L2 := by
  induction L1 with
  | nil => simp [get_macros_nil]
  | cons node rest ih =>
      simp [get_macros_cons, ih, Finset.union_assoc]

theorem get_macros_join (files : List (List LatexNode)) :
    (files.map get_macros).foldr (fun a b => a ∪ b) ∅ = get_macros files.flatten := by
  induction files with
  | nil => simp [get_macros_nil]
  | cons l ls ih => simp [List.flatten, get_macros_append, ih]

theorem get_macros_eq_toFinset (l : List LatexNode) :
    get_macros l = (macro_names l).toFinset := by
  induction l using macro_names.induct with
  | case1 => simp [get_macros_nil, macro_names]
  | case2 name args rest ih =>
      simp [get_macros_cons, node_contrib_macro, macro_names, ih, Finset.insert_eq]
  | case3 l rest ih1 ih2 =>
      simp [get_macros_cons, node_contrib_math, macro_names, ih1, ih2, List.toFinset_append]
  | case4 ename l rest ih1 ih2 =>
      simp [get_macros_cons, node_contrib_env, macro_names, ih1, ih2, List.toFinset_append]
  | case5 node rest h1 h2 h3 ih =>
      cases node <;> simp_all [get_macros_cons, node_contrib_group, node_contrib_chars,
        node_contrib_specials, macro_names]

theorem nodes_size_pos (l : List LatexNode) : 1 ≤ nodes_size l := by
  cases l with
  | nil => simp [nodes_size]
  | cons node rest => cases node <;> simp [nodes_size] <;> omega

theorem scan_foldl_spec (files : List FsFile) (acc : ScanResult) :
    (files.foldl scan_file acc).all_md_filepaths
        = acc.all_md_filepaths ++ files.filter (fun f => decide (f.suffix = ".md")) ∧
    (files.foldl scan_file acc).all_ipynb_filepaths
        = acc.all_ipynb_filepaths ++ files.filter (fun f => decide (f.suffix = ".ipynb")) ∧
    (files.foldl scan_file acc).hidden_ignored
        = acc.hidden_ignored ++ files.filter (fun f => decide (f.suffix = "")) ∧
    (files.foldl scan_file acc).warned
        = acc.warned ++ files.filter
            (fun f => decide (f.suffix ≠ ".md" ∧ f.suffix ≠ ".ipynb" ∧ f.suffix ≠ "")) := by
  induction files generalizing acc with
  | nil => simp
  | cons f fs ih =>
      obtain ⟨ih1, ih2, ih3, ih4⟩ := ih (scan_file acc f)
      simp only [List.foldl_cons]
      rw [ih1, ih2, ih3, ih4]
      by_cases h1 : f.suffix = ".md"
      · simp [scan_file, h1, List.filter_cons]
      · by_cases h2 : f.suffix = ".ipynb"
        · simp [scan_file, h1, h2, List.filter_cons]
        · by_cases h3 : f.suffix = ""
          · simp [scan_file, h1, h2, h3, List.filter_cons]
          · simp [scan_file, h1, h2, h3, List.filter_cons]

theorem newline_data : ("\n" : String).data = ['\n'] := rfl

theorem wfc_cons_cons (m r : String) (rs : List String) :
    write_file_content (m :: r :: rs) = m ++ "\n" ++ write_file_content (r :: rs) := rfl

theorem wfc_data (m r : String) (rs : List String) :
    (write_file_content (m :: r :: rs)).data
      = m.data ++ '\n' :: (write_file_content (r :: rs)).data := by
  simp [wfc_cons_cons, string_data_append, newline_data]

theorem wfc_ne_nil : ∀ (macros : List String), macros ≠ [] →
    (∀ s ∈ macros, s.data ≠ []) → (write_file_content macros).data ≠ []
  | [m], _, h => h m (by simp)
  | m :: r :: rs, _, h => by
      rw [wfc_data]
      simp

theorem mem_of_getLast?_eq {α : Type} {l : List α} {c : α} (h : l.getLast? = some c) :
    c ∈ l := by
  obtain ⟨hne, heq⟩ := List.mem_getLast?_eq_getLast (show c ∈ l.getLast? from h)
  rw [heq]
  exact List.getLast_mem hne

theorem wfc_count : ∀ (macros : List String), (∀ s ∈ macros, ('\n') ∉ s.data) →
    macros ≠ [] → (write_file_content macros).data.count '\n' + 1 = macros.length
  | [m], h, _ => by
      have h0 : List.count '\n' m.data = 0 := List.count_eq_zero.2 (h m (by simp))
      simpa [write_file_content] using h0
  | m :: r :: rs, h, _ => by
      have hrec := wfc_count (r :: rs)
        (fun s hs => h s (List.mem_cons_of_mem m hs)) (by simp)
      have h0 : List.count '\n' m.data = 0 := List.count_eq_zero.2 (h m (by simp))
      rw [wfc_data]
      simp [List.count_append, List.count_cons, h0, List.length_cons] at hrec ⊢
      omega

theorem wfc_last : ∀ (macros : List String),
    (∀ s ∈ macros, s.data ≠ [] ∧ ('\n') ∉ s.data) → macros ≠ [] →
    (write_file_content macros).data.getLast? ≠ some '\n'
  | [m], h, _ => by
      intro hlast
      exact (h m (by simp)).2 (mem_of_getLast?_eq hlast)
  | m :: r :: rs, h, _ => by
      intro hlast
      have hrec := wfc_last (r :: rs)
        (fun s hs => h s (List.mem_cons_of_mem m hs)) (by simp)
      have hwne : (write_file_content (r :: rs)).data ≠ [] :=
        wfc_ne_nil (r :: rs) (by simp)
          (fun s hs => (h s (List.mem_cons_of_mem m hs)).1)
      rw [wfc_data, List.getLast?_append_cons] at hlast
      cases hw : (write_file_content (r :: rs)).data with
      | nil => exact hwne hw
      | cons c cs =>
          rw [hw, List.getLast?_cons_cons] at hlast
          exact (hw ▸ hrec) hlast

theorem get_macros_fuel_spec : ∀ (fuel : Nat) (l : List LatexNode),
    nodes_size l ≤ fuel → get_macros_fuel fuel l = some (get_macros l) := by
  intro fuel
  induction fuel with
  | zero =>
      intro l h
      exact absurd h (by have := nodes_size_pos l; omega)
  | succ fuel ih =>
      intro l h
      cases l with
      | nil => simp [get_macros_fuel, get_macros_nil]
      | cons node rest =>
          cases node with
          | LatexMacroNode name args =>
              have h2 : nodes_size rest ≤ fuel := by simp [nodes_size] at h; omega
              simp [get_macros_fuel, ih rest h2, get_macros_cons, node_contrib_macro]
          | LatexMathNode l2 =>
              have h1 : nodes_size l2 ≤ fuel := by simp [nodes_size] at h; omega
              have h2 : nodes_size rest ≤ fuel := by simp [nodes_size] at h; omega
              simp [get_macros_fuel, ih l2 h1, ih rest h2, get_macros_cons, node_contrib_math]
          | LatexEnvironmentNode en l2 =>
              have h1 : nodes_size l2 ≤ fuel := by simp [nodes_size] at h; omega
              have h2 : nodes_size rest ≤ fuel := by simp [nodes_size] at h; omega
              simp [get_macros_fuel, ih l2 h1, ih rest h2, get_macros_cons, node_contrib_env]
          | LatexGroupNode l2 =>
              have h2 : nodes_size rest ≤ fuel := by simp [nodes_size] at h; omega
              simp [get_macros_fuel, ih rest h2, get_macros_cons, node_contrib_group]
          | LatexCharsNode s =>
              have h2 : nodes_size rest ≤ fuel := by simp [nodes_size] at h; omega
              simp [get_macros_fuel, ih rest h2, get_macros_cons, node_contrib_chars]
          | LatexSpecialsNode s =>
              have h2 : nodes_size rest ≤ fuel := by simp [nodes_size] at h; omega
              simp [get_macros_fuel, ih rest h2, get_macros_cons, node_contrib_specials]

/-- C1 counterexample: collecting from the node list of
`\begin{align}\delta\end{align}` does not yield the claimed set containing
the environment name: environment nodes fail `is_macro`, so only the body
is descended into and the result is the singleton of "delta". -/
theorem C1_env_name_counterexample :
    get_macros [LatexNode.LatexEnvironmentNode "align" [LatexNode.LatexMacroNode "delta" []]]
      ≠ ({"align", "delta"} : Finset String) := by
  have h : get_macros
      [LatexNode.LatexEnvironmentNode "align" [LatexNode.LatexMacroNode "delta" []]]
      = ({"delta"} : Finset String) := by
    simp [get_macros_cons, node_contrib_env, node_contrib_macro, get_macros_nil]
  rw [h]
  intro heq
  have hmem : ("align" : String) ∈ ({"delta"} : Finset String) := by
    rw [heq]; simp
  simp at hmem

/-- C1 (corrected): for every environment node the collector does not
record the environment's own name; it only descends into the environment's
body, so the node list of `\begin{align}\delta\end{align}` yields exactly
the singleton "delta". -/
theorem C1_env_descends_body_only (ename : String) (body rest : List LatexNode) :
    get_macros (LatexNode.LatexEnvironmentNode ename body :: rest)
        = get_macros body ∪ get_macros rest ∧
    get_macros [LatexNode.LatexEnvironmentNode "align" [LatexNode.LatexMacroNode "delta" []]]
        = ({"delta"} : Finset String) := by
  constructor
  · simp [get_macros_cons, node_contrib_env]
  · simp [get_macros_cons, node_contrib_env, node_contrib_macro, get_macros_nil]

/-- C2: for every node list, `get_macros` returns exactly the set given by
the reference definition of the spec's Macro Collector algorithm. -/
theorem C2_get_macros_matches_reference (l : List LatexNode) :
    get_macros l = get_macros_ref l := by
  induction l using get_macros_ref.induct <;>
    simp_all [get_macros, get_macros_ref, is_macro, has_nodelist, LatexNode.macroname,
      LatexNode.nodelist]

/-- C3 counterexample: the blank string " " is nonempty and absent from the
denylist, yet `final_clean` removes it (its stripped form is empty), so the
claim's second conjunct fails as stated. -/
theorem C3_whitespace_counterexample :
    (" " : String) ∈ ({" "} : Finset String) ∧ (" " : String) ≠ "" ∧
    (" " : String) ∉ problem_list ∧ (" " : String) ∉ final_clean {" "} := by
  refine ⟨by simp, by decide, by decide, by decide⟩

/-- C3 (corrected): `final_clean` is idempotent, and it never removes a
string that is nonempty after stripping surrounding whitespace and absent
from the denylist. -/
theorem C3_final_clean_idempotent (S : Finset String) :
    final_clean (final_clean S) = final_clean S ∧
    ∀ s ∈ S, s.strip ≠ "" → s ∉ problem_list → s ∈ final_clean S := by
  constructor
  · simp [final_clean, Finset.filter_filter]
  · intro s hs h1 h2
    simp only [final_clean, Finset.mem_filter]
    exact ⟨hs, h1, h2⟩

/-- C3 witness: the corrected statement applied to the concrete set
containing only "alpha". -/
theorem C3_final_clean_witness : ("alpha" : String) ∈ final_clean {"alpha"} :=
  (C3_final_clean_idempotent {"alpha"}).2 "alpha" (by simp) (by decide) (by decide)

/-- C4: the size of the collected set is at most the number of macro nodes
encountered by the traversal and equals the number of distinct names among
them. -/
theorem C4_card_eq_distinct_names (l : List LatexNode) :
    (get_macros l).card ≤ (macro_names l).length ∧
    (get_macros l).card = (macro_names l).dedup.length := by
  have h := get_macros_eq_toFinset l
  constructor
  · rw [h, List.card_toFinset]
    exact List.Sublist.length_le (List.dedup_sublist _)
  · rw [h, List.card_toFinset]

/-- C5: a macro node contributes only its name and its arguments are never
descended into; the node list of `\section{\gamma}` yields exactly the
singleton "section" and "gamma" is not collected. -/
theorem C5_macro_args_not_descended (name : String) (args rest : List LatexNode) :
    get_macros (LatexNode.LatexMacroNode name args :: rest) = {name} ∪ get_macros rest ∧
    get_macros [LatexNode.LatexMacroNode "section"
        [LatexNode.LatexGroupNode [LatexNode.LatexMacroNode "gamma" []]]]
      = ({"section"} : Finset String) ∧
    ("gamma" : String) ∉ get_macros [LatexNode.LatexMacroNode "section"
        [LatexNode.LatexGroupNode [LatexNode.LatexMacroNode "gamma" []]]] := by
  refine ⟨by simp [get_macros_cons, node_contrib_macro], ?_, ?_⟩
  · simp [get_macros_cons, node_contrib_macro, get_macros_nil]
  · simp [get_macros_cons, node_contrib_macro, get_macros_nil]

/-- C6: `final_clean` keeps exactly the elements that are nonempty after
stripping surrounding whitespace and differ from all six denylist tokens;
cleaning the raw five-element scenario set keeps exactly "alpha" and
"beta". -/
theorem C6_final_clean_exact (S : Finset String) (s : String) :
    (s ∈ final_clean S ↔ s ∈ S ∧ s.strip ≠ "" ∧ s ∉ problem_list) ∧
    final_clean {"alpha", "\x7b", "", "n", "beta"} = ({"alpha", "beta"} : Finset String) := by
  constructor
  · simp [final_clean, Finset.mem_filter]
  · rfl

/-- C7: collecting over a concatenation of node lists equals the union of
the collections, and the folded union of per-file macro sets equals the
collection over the flattened corpus. -/
theorem C7_union_eq_concat :
    (∀ L1 L2 : List LatexNode, get_macros (L1 ++ L2) = get_macros L1 ∪ get_macros L2) ∧
    (∀ files : List (List LatexNode),
      (files.map get_macros).foldr (fun a b => a ∪ b) ∅ = get_macros files.flatten) :=
  ⟨get_macros_append, get_macros_join⟩

/-- C8: the recursion of `get_macros` terminates on every finite node
tree: a node with a child node list recurses on a strictly smaller list,
and the fuel-instrumented procedure completes (returns `some` of the
collected set) whenever the fuel is at least the tree size. -/
theorem C8_terminates :
    (∀ (node : LatexNode) (rest : List LatexNode), has_nodelist node = true →
        nodes_size (LatexNode.nodelist node) < nodes_size (node :: rest)) ∧
    (∀ (fuel : Nat) (l : List LatexNode), nodes_size l ≤ fuel →
        get_macros_fuel fuel l = some (get_macros l)) := by
  constructor
  · intro node rest hn
    cases node
    all_goals simp [has_nodelist] at hn
    all_goals simp [nodes_size, LatexNode.nodelist]
    all_goals omega
  · exact get_macros_fuel_spec

/-- C8 witness: the fuel-instrumented collector completes on the concrete
align/delta tree with fuel 9. -/
theorem C8_terminates_witness :
    get_macros_fuel 9 [LatexNode.LatexEnvironmentNode "align" [LatexNode.LatexMacroNode "delta" []]]
      = some (get_macros
          [LatexNode.LatexEnvironmentNode "align" [LatexNode.LatexMacroNode "delta" []]]) :=
  C8_terminates.2 9 _ (by norm_num [nodes_size])

/-- C9: the folder scan sends files with the markdown extension to the
markdown list, notebook files to the notebook list, extensionless files to
the silently-skipped list, and all other files to the non-fatal warning
list; a `.txt` file is warned about while its `.md` and `.ipynb` siblings
are still classified, and a single existing folder is scanned without a
fatal error. -/
theorem C9_classification (files : List FsFile) :
    ((files.foldl scan_file emptyScan).all_md_filepaths
        = files.filter (fun f => decide (f.suffix = ".md")) ∧
     (files.foldl scan_file emptyScan).all_ipynb_filepaths
        = files.filter (fun f => decide (f.suffix = ".ipynb")) ∧
     (files.foldl scan_file emptyScan).hidden_ignored
        = files.filter (fun f => decide (f.suffix = "")) ∧
     (files.foldl scan_file emptyScan).warned
        = files.filter
            (fun f => decide (f.suffix ≠ ".md" ∧ f.suffix ≠ ".ipynb" ∧ f.suffix ≠ ""))) ∧
    ([FsFile.mk "notes.md" ".md", FsFile.mk "data.txt" ".txt",
        FsFile.mk "nb.ipynb" ".ipynb"].foldl scan_file emptyScan
      = ScanResult.mk [FsFile.mk "notes.md" ".md"] [FsFile.mk "nb.ipynb" ".ipynb"]
          [] [FsFile.mk "data.txt" ".txt"]) ∧
    (∀ (book_dir : String → Option (List FsFile)) (unit : String) (fs : List FsFile)
        (acc : ScanResult), book_dir unit = some fs →
      get_content_filepaths book_dir [unit] acc = Except.ok (fs.foldl scan_file acc)) := by
  refine ⟨?_, by rfl, ?_⟩
  · have h := scan_foldl_spec files emptyScan
    simpa [emptyScan] using h
  · intro book_dir unit fs acc hb
    simp [get_content_filepaths, hb]

/-- C9 witness: scanning one existing (empty) folder succeeds. -/
theorem C9_classification_witness :
    get_content_filepaths (fun _ => some []) ["unit1"] emptyScan
      = Except.ok (([] : List FsFile).foldl scan_file emptyScan) :=
  (C9_classification []).2.2 (fun _ => some []) "unit1" [] emptyScan rfl

/-- C10 counterexample: the two-element macro set containing "a" and the
empty string, enumerated in that order, is written as a text that does end
with a newline character, refuting the claim's universal no-trailing-
newline statement. -/
theorem C10_trailing_newline_counterexample :
    List.Nodup ["a", ""] ∧ write_file_content ["a", ""] = "a\n" ∧
    ("a\n" : String).data.getLast? = some '\n' := by
  refine ⟨by decide, rfl, by decide⟩

/-- C10 (corrected): the written content is the names joined by single
newline characters; the empty set gives the empty string; and when every
name is nonempty and contains no newline character, the content does not
end with a newline and the number of lines (newline count plus one) equals
the number of names. -/
theorem C10_write_joins_newlines (macros : List String) :
    (macros = [] → write_file_content macros = "") ∧
    ((∀ s ∈ macros, s.data ≠ [] ∧ ('\n') ∉ s.data) → macros ≠ [] →
      (write_file_content macros).data.getLast? ≠ some '\n' ∧
      (write_file_content macros).data.count '\n' + 1 = macros.length) := by
  constructor
  · intro h; subst h; rfl
  · intro h hne
    exact ⟨wfc_last macros h hne, wfc_count macros (fun s hs => (h s hs).2) hne⟩

/-- C10 witness: the corrected statement applied to the concrete
two-element list of names "alpha" and "beta". -/
theorem C10_write_joins_newlines_witness :
    (write_file_content ["alpha", "beta"]).data.getLast? ≠ some '\n' ∧
    (write_file_content ["alpha", "beta"]).data.count '\n' + 1
      = (["alpha", "beta"] : List String).length :=
  (C10_write_joins_newlines ["alpha", "beta"]).2 (by decide) (by decide)
